import Mathlib

/-!
Verification of the dictionary pipeline core
(normalization, deduplication, ranking, integrity checks).

The definitions below are a shallow embedding of the Python sources
`scripts/_common.py`, `scripts/normalize_dictionary.py`,
`scripts/compute_lex_rank.py` and `scripts/sanity_check_ranked.py`.
Strings are Lean `String`s; Python string comparison (code-point
lexicographic) is modelled as the lexicographic order on `List Char`
(the `.data` field); Python `int(...)`, which raises `ValueError` on
unparsable input, is modelled as an `Option Int` (with `none` for the
exception); Python `sorted` with a key function is modelled as a stable
sort (`List.insertionSort`) under the pulled-back key order, which
agrees with any stable sort on the same comparator.
-/

/-! ## Text utilities (from scripts/_common.py) -/

/-- Whitespace as matched by the regex class used in
`clean_whitespace` (modelled for the ASCII range, which covers every
input considered here). -/
def isPySpace (c : Char) : Bool :=
  c = ' ' || c = '\t' || c = '\n' || c = '\r' || c = '\x0b' || c = '\x0c'

/-- Python `str.strip()` on a list of characters: remove leading and
trailing whitespace. -/
def pyStripList (l : List Char) : List Char :=
  ((l.dropWhile isPySpace).reverse.dropWhile isPySpace).reverse

/-- Python `str.strip()`. -/
def pyStrip (s : String) : String :=
  ⟨pyStripList s.data⟩

/-- Auxiliary pass of `clean_whitespace`: replace every maximal run of
whitespace by a single space (the regex substitution of a run of
whitespace by one space).  The flag records whether the previous
character belonged to a whitespace run. -/
def collapseWS : Bool → List Char → List Char
  | _, [] => []
  | prevSpace, c :: rest =>
    if isPySpace c then
      if prevSpace then collapseWS true rest
      else ' ' :: collapseWS true rest
    else c :: collapseWS false rest

/-- The source function clean_whitespace: collapse whitespace runs to a
single space, then strip. -/
def clean_whitespace (s : String) : String :=
  pyStrip ⟨collapseWS false s.data⟩

/-- Python `str.lower()` on one character, modelled for the ASCII
range (the inputs considered here contain no non-ASCII uppercase). -/
def pyLowerChar (c : Char) : Char :=
  if 'A' ≤ c ∧ c ≤ 'Z' then Char.ofNat (c.toNat + 32) else c

/-- Modelled fragment of Unicode canonical decomposition (NFKD) as
used by `unicodedata.normalize("NFKD", ...)`: the accented Latin
lowercase letters relevant here decompose into their base letter
followed by a combining mark; every other character is its own
decomposition. -/
def nfkdChar (c : Char) : List Char :=
  if c = '\u00e1' then ['a', '\u0301'] else
  if c = '\u00e9' then ['e', '\u0301'] else
  if c = '\u00ed' then ['i', '\u0301'] else
  if c = '\u00f3' then ['o', '\u0301'] else
  if c = '\u00fa' then ['u', '\u0301'] else
  if c = '\u00e0' then ['a', '\u0300'] else
  if c = '\u00e8' then ['e', '\u0300'] else
  if c = '\u00e7' then ['c', '\u0327'] else
  if c = '\u00f1' then ['n', '\u0303'] else
  if c = '\u00f6' then ['o', '\u0308'] else
  if c = '\u00fc' then ['u', '\u0308'] else
  [c]

/-! ## Normalizer (from scripts/normalize_dictionary.py) -/

/-- The source function normalize_word: collapse and trim whitespace,
lowercase, decompose (NFKD), keep only ASCII (dropping what does not
encode, as `encode("ascii", "ignore")` does), then keep only the
letters a-z. -/
def normalize_word (raw_word : String) : String :=
  let lowered := (clean_whitespace raw_word).data.map pyLowerChar
  let decomposed := (lowered.map nfkdChar).flatten
  let ascii_text := decomposed.filter (fun c => c.toNat ≤ 127)
  ⟨ascii_text.filter (fun c => decide ('a' ≤ c) && decide (c ≤ 'z'))⟩

/-- Outcome of the per-row branch of the normalization loop: a row is
dropped when its key normalizes to the empty string, dropped through
the defensive non-alpha branch, or kept. -/
inductive RowStatus where
  | kept
  | droppedEmpty
  | droppedNonalpha
deriving DecidableEq, Repr

/-- Branch taken by the main loop of `normalize_dictionary.py` for one
row: empty keys are dropped, then the defensive re-check drops any key
with a character outside a-z, and otherwise the row is kept. -/
def rowStatus (word : String) : RowStatus :=
  let n := normalize_word word
  if n = "" then RowStatus.droppedEmpty
  else if n.data.any (fun ch => decide (ch < 'a') || decide ('z' < ch)) then
    RowStatus.droppedNonalpha
  else RowStatus.kept

/-- Value of the `dropped_nonalpha` counter after the normalization
loop has processed the given raw words. -/
def droppedNonalphaCount (words : List String) : Nat :=
  words.countP (fun w => rowStatus w == RowStatus.droppedNonalpha)

/-- Fields computed for a kept row by the normalization loop: the
canonical key, the `first_letter` field (the first character of the
key) and the `number_of_letters` field (the key length); `none` when
the row is dropped. -/
def processRow (word : String) : Option (String × Char × Nat) :=
  let n := normalize_word word
  if n = "" then none
  else if n.data.any (fun ch => decide (ch < 'a') || decide ('z' < ch)) then none
  else
    match n.data with
    | [] => none
    | c :: _ => some (n, c, n.length)

/-! ## Lenient integer parsing (the int(... or "0") idiom) -/

/-- Value of a nonempty all-digit string, `none` otherwise; the digit
part of Python `int(...)` (modelled for ASCII digits, without the
underscore-separator extension). -/
def digitsVal (l : List Char) : Option Nat :=
  if l ≠ [] ∧ l.all (fun c => c.isDigit) then
    some (l.foldl (fun acc c => 10 * acc + (c.toNat - 48)) 0)
  else none

/-- Python `int(s)` on a string: strip whitespace, then an optional
sign followed by at least one digit; `none` models the `ValueError`
raised on anything else. -/
def pyInt (s : String) : Option Int :=
  match pyStripList s.data with
  | '+' :: rest => (digitsVal rest).map (fun n => (n : Int))
  | '-' :: rest => (digitsVal rest).map (fun n => -(n : Int))
  | rest => (digitsVal rest).map (fun n => (n : Int))

/-- The idiom int(row.get("entry_index") or "0") shared by
`normalize_dictionary.py` and `compute_lex_rank.py`: a missing field
(`none`) or an empty string is replaced by "0" before parsing, and any
other string goes to `int` unchanged (so an unparsable nonempty string
still raises, modelled as `none`). -/
def entryIndexOrZero (v : Option String) : Option Int :=
  match v with
  | none => pyInt "0"
  | some s => if s = "" then pyInt "0" else pyInt s

/-! ## Collision Resolver (dedupe branch of normalize_dictionary.py) -/

/-- The dataclass NormalizedEntry of normalize_dictionary.py. -/
structure NEntry where
  source_file : String
  entry_index : Int
  word : String
  normalized_word : String
  part_of_speech : String
  definition : String
  etymology : String
  first_letter : String
  number_of_letters : Int
deriving DecidableEq, Repr

/-- A row of the collisions report CSV (the dict appended to
`collisions`); the entry indices are stored through `str(...)` as in
the source. -/
structure CollisionRecord where
  normalized_word : String
  kept_word : String
  dropped_word : String
  kept_source_file : String
  dropped_source_file : String
  kept_entry_index : String
  dropped_entry_index : String
deriving DecidableEq, Repr

/-- The source function pick_better_definition: the candidate wins
exactly when its stripped definition is strictly longer. -/
def pick_better_definition (existing candidate : NEntry) : NEntry :=
  if (pyStrip candidate.definition).length > (pyStrip existing.definition).length then
    candidate
  else existing

/-- Python `dict.get` on an insertion-ordered association list. -/
def dictGet (k : String) : List (String × NEntry) → Option NEntry
  | [] => none
  | (k1, v) :: rest => if k1 = k then some v else dictGet k rest

/-- Python `dict` assignment: an existing key keeps its position and
gets the new value; a new key is appended at the end. -/
def dictSet (k : String) (v : NEntry) : List (String × NEntry) → List (String × NEntry)
  | [] => [(k, v)]
  | (k1, v1) :: rest => if k1 = k then (k1, v) :: rest else (k1, v1) :: dictSet k v rest

/-- State of the dedupe loop: the `kept_by_normalized` dict and the
`collisions` list. -/
structure DState where
  kept : List (String × NEntry)
  collisions : List CollisionRecord
deriving Repr

/-- One iteration of the dedupe loop of normalize_dictionary.py: a
fresh key is inserted with no record; on a collision the better entry
(strictly longer stripped definition wins, existing wins ties) is
stored and exactly one collision record is appended. -/
def dedupeStep (st : DState) (entry : NEntry) : DState :=
  match dictGet entry.normalized_word st.kept with
  | none => { st with kept := dictSet entry.normalized_word entry st.kept }
  | some existing =>
    let better := pick_better_definition existing entry
    let dropped :=
      if (pyStrip entry.definition).length > (pyStrip existing.definition).length then
        existing
      else entry
    { kept := dictSet entry.normalized_word better st.kept,
      collisions := st.collisions ++
        [{ normalized_word := entry.normalized_word,
           kept_word := better.word,
           dropped_word := dropped.word,
           kept_source_file := better.source_file,
           dropped_source_file := dropped.source_file,
           kept_entry_index := toString better.entry_index,
           dropped_entry_index := toString dropped.entry_index }] }

/-- The whole dedupe loop, started from the empty dict and empty
collision list. -/
def runDedupe (entries : List NEntry) : DState :=
  entries.foldl dedupeStep { kept := [], collisions := [] }

/-! ## Rank Assigner (scripts/compute_lex_rank.py) -/

/-- The fields of a normalized CSV row that the rank computation
reads; `rest` stands for the remaining columns, which are carried
through unchanged.  The `entry_index` field is the already-parsed
integer (the parse itself is `entryIndexOrZero`). -/
structure RankRow where
  source_file : String
  entry_index : Int
  word : String
  normalized_word : String
  rest : List (String × String)
deriving DecidableEq, Repr

/-- The source function sort_key: the tuple
(normalized_word, word, source_file, entry_index), compared as Python
compares tuples and strings, i.e. lexicographically with code-point
string order. -/
def sort_key (r : RankRow) : Lex (List Char × Lex (List Char × Lex (List Char × Int))) :=
  toLex (r.normalized_word.data, toLex (r.word.data, toLex (r.source_file.data, r.entry_index)))

/-- Comparator induced by sort_key. -/
def rowLE (a b : RankRow) : Prop := sort_key a ≤ sort_key b

instance rowLE.decRel : DecidableRel rowLE :=
  fun a b => inferInstanceAs (Decidable (sort_key a ≤ sort_key b))

instance rowLE.total : IsTotal RankRow rowLE :=
  ⟨fun a b => le_total (sort_key a) (sort_key b)⟩

instance rowLE.trans : IsTrans RankRow rowLE :=
  ⟨fun _ _ _ => le_trans⟩

/-- Python sorted(rows, key=sort_key): a stable sort under the key
order (stable sorts under one comparator agree, so insertion sort is
the sort of the source). -/
def sortRows (rows : List RankRow) : List RankRow :=
  List.insertionSort rowLE rows

/-- A ranked CSV row: the input row plus the lex_rank column. -/
structure RankedRow where
  row : RankRow
  lex_rank : Nat
deriving DecidableEq, Repr

/-- The main transformation of compute_lex_rank.py: sort by sort_key,
then attach lex_rank = position + 1 (1-based enumeration). -/
def computeLexRank (rows : List RankRow) : List RankedRow :=
  (List.enumFrom 1 (sortRows rows)).map (fun p => { row := p.2, lex_rank := p.1 })

/-- Dropping the lex_rank column again (re-running the stage on its
own output reads back exactly the other columns). -/
def stripRanks (rows : List RankedRow) : List RankRow :=
  rows.map (fun r => r.row)

/-! ## Invariant Verifier (scripts/sanity_check_ranked.py) -/

/-- The fields of a ranked CSV row that the sanity checker reads; the
numeric columns are the already-parsed integers (the parse is again
the int(... or "0") idiom). -/
structure VRow where
  normalized_word : String
  first_letter : String
  number_of_letters : Int
  lex_rank : Int
deriving DecidableEq, Repr

/-- One violation message appended to `errors`, tagged by the kind of
check and the data interpolated into the message. -/
inductive Violation where
  | emptyKey (idx : Nat)
  | nonAlpha (idx : Nat) (key : String)
  | firstLetterMismatch (idx : Nat) (fl key0 : String)
  | lengthMismatch (idx : Nat) (n : Int) (len : Nat)
  | duplicateRank (idx : Nat) (r : Int)
  | orderingViolation (idx : Nat) (key lastWord : String)
  | rankSetMismatch
deriving DecidableEq, Repr

/-- Predicate picking out the ordering-violation messages. -/
def Violation.isOrdering : Violation → Bool
  | Violation.orderingViolation _ _ _ => true
  | _ => false

/-- The per-row loop of sanity_check_ranked.py: `idx` is the 1-based
row number, `seen` the set of ranks seen so far and `lastWord` the
previous nonempty stripped key; it returns the violations in the order
the loop appends them, together with the final rank set. -/
def checkLoop (idx : Nat) (seen : List Int) (lastWord : Option String) :
    List VRow → List Violation × List Int
  | [] => ([], seen)
  | row :: rest =>
    let normalized := pyStrip row.normalized_word
    let fl := pyStrip row.first_letter
    let e1 := if normalized = "" then [Violation.emptyKey idx] else []
    let e2 :=
      if normalized ≠ "" ∧ normalized.data.any (fun ch => decide (ch < 'a') || decide ('z' < ch)) then
        [Violation.nonAlpha idx normalized]
      else []
    let e3 :=
      if normalized ≠ "" ∧ fl ≠ normalized.take 1 then
        [Violation.firstLetterMismatch idx fl (normalized.take 1)]
      else []
    let e4 :=
      if normalized ≠ "" ∧ row.number_of_letters ≠ (normalized.length : Int) then
        [Violation.lengthMismatch idx row.number_of_letters normalized.length]
      else []
    let e5 := if row.lex_rank ∈ seen then [Violation.duplicateRank idx row.lex_rank] else []
    let seen1 := if row.lex_rank ∈ seen then seen else row.lex_rank :: seen
    let e6 :=
      match lastWord with
      | some lw => if normalized ≠ "" ∧ normalized.data < lw.data then
          [Violation.orderingViolation idx normalized lw]
        else []
      | none => []
    let lastWord1 := if normalized ≠ "" then some normalized else lastWord
    let p := checkLoop (idx + 1) seen1 lastWord1 rest
    (e1 ++ e2 ++ e3 ++ e4 ++ e5 ++ e6 ++ p.1, p.2)

/-- Set equality of the collected ranks with the contiguous range
1..N, as the final check of the loop compares the Python sets. -/
def ranksMatch (seen : List Int) (n : Nat) : Bool :=
  ((List.range' 1 n).map (fun k => (k : Int))).all (fun k => k ∈ seen) &&
    seen.all (fun k => k ∈ (List.range' 1 n).map (fun j => (j : Int)))

/-- The full `errors` list of sanity_check_ranked.py: the loop
violations followed by the rank-set check. -/
def sanityErrors (rows : List VRow) : List Violation :=
  let p := checkLoop 1 [] none rows
  p.1 ++ (if ranksMatch p.2 rows.length then [] else [Violation.rankSetMismatch])

/-- Exit code of sanity_check_ranked.py: 2 on an empty input, 1 when
any violation was collected, 0 otherwise. -/
def sanityExit (rows : List VRow) : Nat :=
  if rows = [] then 2
  else if sanityErrors rows ≠ [] then 1
  else 0

/-- Stripped nonempty canonical keys of the rows, in file order: the
subsequence of keys the ordering check of the loop actually walks. -/
def strippedKeys (rows : List VRow) : List String :=
  (rows.map (fun r => pyStrip r.normalized_word)).filter (fun s => s ≠ "")

/-- Modelled from the spec: the rank-order walk of claim C3 — the
sequence of canonical keys, read off in ascending lex_rank order, is
non-decreasing under byte-wise comparison.  (The ascending-rank walk
itself is not code of the repository; the verifier reads rows in file
order.) -/
def specRankWalkMonotone (rows : List VRow) : Prop :=
  List.Chain' (fun a b : String => a.data ≤ b.data)
    ((List.insertionSort (fun a b : VRow => a.lex_rank ≤ b.lex_rank) rows).map
      (fun r => r.normalized_word))

/-! ## Helper lemmas -/

lemma normalize_word_mem_range {s : String} {c : Char} (hc : c ∈ (normalize_word s).data) :
    'a' ≤ c ∧ c ≤ 'z' := by
  have h := (List.mem_filter.mp hc).2
  simp only [Bool.and_eq_true, decide_eq_true_eq] at h
  exact h

lemma normalize_word_nonalpha_false (s : String) :
    (normalize_word s).data.any (fun ch => decide (ch < 'a') || decide ('z' < ch)) = false := by
  rw [List.any_eq_false]
  intro c hc
  have h := normalize_word_mem_range hc
  simp only [Bool.or_eq_true, decide_eq_true_eq, not_or]
  exact ⟨not_lt.mpr h.1, not_lt.mpr h.2⟩

/-! ## Claim theorems -/

/-- Claim C1, counterexample: the Normalizer maps "Café-123!" to
"cafe", not to "caf" — the NFKD decomposition of the accented letter
keeps its base letter, so the key has length 4, not 3. -/
theorem C1_counterexample :
    normalize_word "Café-123!" = "cafe" ∧
      normalize_word "Café-123!" ≠ "caf" ∧ (normalize_word "Café-123!").length ≠ 3 := by
  refine ⟨rfl, ?_, ?_⟩ <;> decide

/-- Claim C1 (amended): for the input word "Café-123!" the Normalizer
produces the canonical key "cafe" (digits and punctuation stripped,
the accent removed leaving the base letter): the entry is not dropped,
its length field equals 4, and its first_letter equals "c". -/
theorem C1_cafe_row : processRow "Café-123!" = some ("cafe", 'c', 4) := rfl

/-- Claim C2, counterexample: a nonempty unparsable entry_index such
as "x7" is not treated as 0 — the int(...) call raises (modelled as
none) and the run fails. -/
theorem C2_counterexample :
    entryIndexOrZero (some "x7") = none ∧ entryIndexOrZero (some "x7") ≠ some 0 := by
  refine ⟨rfl, ?_⟩; decide

/-- Claim C2 (amended): only a missing or empty entry_index field is
treated as 0; any other value is handed to int() unchanged, so a
nonempty unparsable value raises and fails the run. -/
theorem C2_lenient_parse :
    entryIndexOrZero none = some 0 ∧ entryIndexOrZero (some "") = some 0 ∧
      ∀ s : String, s ≠ "" → entryIndexOrZero (some s) = pyInt s := by
  refine ⟨rfl, rfl, fun s hs => ?_⟩
  simp [entryIndexOrZero, hs]

/-- Claim C2, witness for the amended claim at the concrete unparsable
field "abc". -/
theorem C2_lenient_parse_witness :
    ("abc" : String) ≠ "" ∧ entryIndexOrZero (some "abc") = pyInt "abc" :=
  ⟨by decide, C2_lenient_parse.2.2 "abc" (by decide)⟩

/-- Claim C9: every output of normalize_word consists of characters in
a-z only, so the defensive non-alpha drop branch never fires and the
dropped_nonalpha counter is 0 on every run. -/
theorem C9_nonalpha_branch_unreachable :
    (∀ s : String,
        (normalize_word s).data.all (fun c => decide ('a' ≤ c) && decide (c ≤ 'z')) = true) ∧
      ∀ words : List String, droppedNonalphaCount words = 0 := by
  constructor
  · intro s
    rw [List.all_eq_true]
    intro c hc
    have h := normalize_word_mem_range hc
    simp [h.1, h.2]
  · intro words
    rw [droppedNonalphaCount, List.countP_eq_zero]
    intro w _
    rw [rowStatus]
    simp only [normalize_word_nonalpha_false]
    split
    · decide
    · decide

lemma dictGet_dictSet (k : String) (v : NEntry) (l : List (String × NEntry)) :
    dictGet k (dictSet k v l) = some v := by
  induction l with
  | nil => simp [dictSet, dictGet]
  | cons h t ih =>
    obtain ⟨k1, v1⟩ := h
    by_cases hk : k1 = k <;> simp [dictSet, dictGet, hk, ih]

lemma dictGet_eq_none_iff (k : String) (l : List (String × NEntry)) :
    dictGet k l = none ↔ k ∉ l.map Prod.fst := by
  induction l with
  | nil => simp [dictGet]
  | cons h t ih =>
    obtain ⟨k1, v1⟩ := h
    by_cases hk : k1 = k
    · subst hk
      simp [dictGet]
    · have hk2 : ¬k = k1 := fun hh => hk hh.symm
      simp only [dictGet, if_neg hk, List.map_cons, List.mem_cons, ih]
      tauto

lemma dictSet_length_of_some {k : String} {l : List (String × NEntry)} {v0 : NEntry}
    (h : dictGet k l = some v0) (v : NEntry) : (dictSet k v l).length = l.length := by
  induction l with
  | nil => simp [dictGet] at h
  | cons hd t ih =>
    obtain ⟨k1, v1⟩ := hd
    by_cases hk : k1 = k
    · simp [dictSet, hk]
    · simp only [dictGet, if_neg hk] at h
      simp [dictSet, hk, ih h]

lemma dictSet_keys_of_some {k : String} {l : List (String × NEntry)} {v0 : NEntry}
    (h : dictGet k l = some v0) (v : NEntry) :
    (dictSet k v l).map Prod.fst = l.map Prod.fst := by
  induction l with
  | nil => simp [dictGet] at h
  | cons hd t ih =>
    obtain ⟨k1, v1⟩ := hd
    by_cases hk : k1 = k
    · simp [dictSet, hk]
    · simp only [dictGet, if_neg hk] at h
      simp [dictSet, hk, ih h]

lemma dictSet_keys_of_none {k : String} {l : List (String × NEntry)}
    (h : dictGet k l = none) (v : NEntry) :
    (dictSet k v l).map Prod.fst = l.map Prod.fst ++ [k] := by
  induction l with
  | nil => simp [dictSet]
  | cons hd t ih =>
    obtain ⟨k1, v1⟩ := hd
    by_cases hk : k1 = k
    · simp [dictGet, hk] at h
    · simp only [dictGet, if_neg hk] at h
      simp [dictSet, hk, ih h]

lemma dedupe_count_inv (es : List NEntry) (st : DState) :
    (es.foldl dedupeStep st).collisions.length + (es.foldl dedupeStep st).kept.length
      = st.collisions.length + st.kept.length + es.length := by
  induction es generalizing st with
  | nil => simp
  | cons e t ih =>
    have hstep : (dedupeStep st e).collisions.length + (dedupeStep st e).kept.length
        = st.collisions.length + st.kept.length + 1 := by
      rcases h : dictGet e.normalized_word st.kept with _ | ex
      · have hkeys := dictSet_keys_of_none h e
        have hlen : (dictSet e.normalized_word e st.kept).length = st.kept.length + 1 := by
          have h2 := congrArg List.length hkeys
          simpa using h2
        simp only [dedupeStep, h, hlen]
        omega
      · have hlen := dictSet_length_of_some h (pick_better_definition ex e)
        simp only [dedupeStep, h, List.length_append, List.length_singleton, hlen]
        omega
    rw [List.foldl_cons, ih (dedupeStep st e), List.length_cons]
    omega

lemma dedupe_keys_inv (es : List NEntry) (st : DState) :
    ((es.foldl dedupeStep st).kept.map Prod.fst).toFinset
      = (st.kept.map Prod.fst).toFinset ∪ (es.map (fun e => e.normalized_word)).toFinset := by
  induction es generalizing st with
  | nil => simp
  | cons e t ih =>
    rw [List.foldl_cons, ih]
    rcases h : dictGet e.normalized_word st.kept with _ | ex
    · have hkeys := dictSet_keys_of_none h e
      simp only [dedupeStep, h, hkeys]
      simp only [List.map_cons, List.toFinset_append, List.toFinset_cons]
      ext a
      simp only [Finset.mem_union, Finset.mem_insert, List.mem_toFinset, List.toFinset_nil,
        Finset.not_mem_empty, or_false, Finset.mem_singleton]
      tauto
    · have hkeys := dictSet_keys_of_some h (pick_better_definition ex e)
      have hmem : e.normalized_word ∈ st.kept.map Prod.fst := by
        by_contra hc
        rw [← dictGet_eq_none_iff] at hc
        rw [hc] at h
        cases h
      simp only [dedupeStep, h, hkeys]
      simp only [List.map_cons, List.toFinset_cons]
      ext a
      simp only [Finset.mem_union, Finset.mem_insert, List.mem_toFinset]
      constructor
      · tauto
      · rintro (ha | rfl | ha) <;> tauto

lemma dedupe_nodup_inv (es : List NEntry) (st : DState)
    (h : (st.kept.map Prod.fst).Nodup) :
    ((es.foldl dedupeStep st).kept.map Prod.fst).Nodup := by
  induction es generalizing st with
  | nil => exact h
  | cons e t ih =>
    rw [List.foldl_cons]
    apply ih
    rcases hg : dictGet e.normalized_word st.kept with _ | ex
    · have hkeys := dictSet_keys_of_none hg e
      have hmem := (dictGet_eq_none_iff _ _).mp hg
      simp only [dedupeStep, hg, hkeys]
      simp [List.nodup_append, h, hmem]
    · have hkeys := dictSet_keys_of_some hg (pick_better_definition ex e)
      simp only [dedupeStep, hg, hkeys]
      exact h

/-- Claim C4: in dedupe mode, an incoming entry colliding with the
kept entry for its canonical key replaces it exactly when its trimmed
definition is strictly longer; on equal trimmed lengths (including
both empty) the existing, first-seen entry stays kept. -/
theorem C4_tiebreak (st : DState) (entry existing : NEntry)
    (h : dictGet entry.normalized_word st.kept = some existing) :
    dictGet entry.normalized_word (dedupeStep st entry).kept =
      some (if (pyStrip entry.definition).length > (pyStrip existing.definition).length
            then entry else existing) ∧
      ((pyStrip entry.definition).length = (pyStrip existing.definition).length →
        dictGet entry.normalized_word (dedupeStep st entry).kept = some existing) := by
  have hmain : dictGet entry.normalized_word (dedupeStep st entry).kept =
      some (if (pyStrip entry.definition).length > (pyStrip existing.definition).length
            then entry else existing) := by
    simp only [dedupeStep, h, dictGet_dictSet, pick_better_definition]
  refine ⟨hmain, fun heq => ?_⟩
  rw [hmain, heq]
  simp

/-- Claim C4, witness: a tie on trimmed definition length (both
definitions of length 3) keeps the existing first-seen entry. -/
theorem C4_tiebreak_witness :
    (dictGet "run"
        ({ kept := [("run", ⟨"f1", 1, "Run", "run", "v", "abc", "", "r", 3⟩)],
           collisions := [] : DState}).kept
      = some ⟨"f1", 1, "Run", "run", "v", "abc", "", "r", 3⟩) ∧
    dictGet "run"
        (dedupeStep
          { kept := [("run", ⟨"f1", 1, "Run", "run", "v", "abc", "", "r", 3⟩)],
            collisions := [] }
          ⟨"f2", 2, "run", "run", "v", "xyz", "", "r", 3⟩).kept
      = some ⟨"f1", 1, "Run", "run", "v", "abc", "", "r", 3⟩ :=
  ⟨by decide,
    (C4_tiebreak
      { kept := [("run", ⟨"f1", 1, "Run", "run", "v", "abc", "", "r", 3⟩)], collisions := [] }
      ⟨"f2", 2, "run", "run", "v", "xyz", "", "r", 3⟩
      ⟨"f1", 1, "Run", "run", "v", "abc", "", "r", 3⟩ (by decide)).2 (by decide)⟩

/-- Claim C10: in dedupe mode every colliding incoming entry produces
exactly one collision record (none for a fresh key), a tie produces a
record naming the incoming entry as dropped and the existing entry as
kept, and the number of collision records plus the number of distinct
canonical keys equals the number of processed entries. -/
theorem C10_collision_records (es : List NEntry) :
    (runDedupe es).collisions.length + (es.map (fun e => e.normalized_word)).toFinset.card
        = es.length ∧
      (∀ st e, (dedupeStep st e).collisions.length =
        st.collisions.length + (if (dictGet e.normalized_word st.kept).isSome then 1 else 0)) ∧
      (∀ st e ex, dictGet e.normalized_word st.kept = some ex →
        (pyStrip e.definition).length ≤ (pyStrip ex.definition).length →
        (dedupeStep st e).collisions = st.collisions ++
          [{ normalized_word := e.normalized_word,
             kept_word := ex.word,
             dropped_word := e.word,
             kept_source_file := ex.source_file,
             dropped_source_file := e.source_file,
             kept_entry_index := toString ex.entry_index,
             dropped_entry_index := toString e.entry_index }]) := by
  refine ⟨?_, ?_, ?_⟩
  · have hcount := dedupe_count_inv es { kept := [], collisions := [] }
    have hkeys := dedupe_keys_inv es { kept := [], collisions := [] }
    have hnodup := dedupe_nodup_inv es { kept := [], collisions := [] } (by simp)
    simp only [List.length_nil, Nat.zero_add] at hcount
    simp only [List.map_nil, List.toFinset_nil, Finset.empty_union] at hkeys
    have hcard : (es.map (fun e => e.normalized_word)).toFinset.card
        = (es.foldl dedupeStep { kept := [], collisions := [] }).kept.length := by
      rw [← hkeys, List.toFinset_card_of_nodup hnodup, List.length_map]
    rw [runDedupe, hcard]
    exact hcount
  · intro st e
    rcases h : dictGet e.normalized_word st.kept with _ | ex
    · simp [dedupeStep, h]
    · simp [dedupeStep, h]
  · intro st e ex h hle
    have hnotgt : ¬ (pyStrip e.definition).length > (pyStrip ex.definition).length :=
      not_lt.mpr hle
    simp only [dedupeStep, h, pick_better_definition, if_neg hnotgt]

/-- Claim C10, witness: two entries sharing the key "run" (a tie)
produce exactly one collision record, naming the incoming entry as
dropped; count: 2 entries, 1 distinct key, 1 record. -/
theorem C10_collision_records_witness :
    ((runDedupe [⟨"f1", 1, "Run", "run", "v", "abc", "", "r", 3⟩,
                 ⟨"f2", 2, "run2", "run", "v", "xyz", "", "r", 3⟩]).collisions.length +
      (([⟨"f1", 1, "Run", "run", "v", "abc", "", "r", 3⟩,
         ⟨"f2", 2, "run2", "run", "v", "xyz", "", "r", 3⟩] : List NEntry).map
          (fun e => e.normalized_word)).toFinset.card = 2) ∧
    (dedupeStep { kept := [("run", ⟨"f1", 1, "Run", "run", "v", "abc", "", "r", 3⟩)],
                  collisions := [] }
        ⟨"f2", 2, "run2", "run", "v", "xyz", "", "r", 3⟩).collisions =
      [{ normalized_word := "run", kept_word := "Run", dropped_word := "run2",
         kept_source_file := "f1", dropped_source_file := "f2",
         kept_entry_index := "1", dropped_entry_index := "2" }] :=
  ⟨(C10_collision_records _).1,
    (C10_collision_records []).2.2
      { kept := [("run", ⟨"f1", 1, "Run", "run", "v", "abc", "", "r", 3⟩)], collisions := [] }
      ⟨"f2", 2, "run2", "run", "v", "xyz", "", "r", 3⟩
      ⟨"f1", 1, "Run", "run", "v", "abc", "", "r", 3⟩ (by decide) (by decide)⟩

/-- Claim C5: the lex_rank values assigned by the Rank Assigner are
exactly the contiguous sequence 1, ..., N for an input of N rows — no
gaps and no duplicates. -/
theorem C5_ranks_contiguous (rows : List RankRow) :
    (computeLexRank rows).map (fun r => r.lex_rank) = List.range' 1 rows.length := by
  unfold computeLexRank
  rw [List.map_map]
  have hcomp : ((fun r : RankedRow => r.lex_rank) ∘
      fun p : Nat × RankRow => ({ row := p.2, lex_rank := p.1 } : RankedRow)) = Prod.fst := rfl
  rw [hcomp, List.enumFrom_map_fst, sortRows, List.length_insertionSort]

lemma computeLexRank_mem {rows : List RankRow} {e : RankedRow}
    (h : e ∈ computeLexRank rows) :
    ∃ i : Fin (sortRows rows).length,
      e.row = (sortRows rows).get i ∧ e.lex_rank = 1 + i.val := by
  unfold computeLexRank at h
  obtain ⟨p, hp, hpe⟩ := List.mem_map.mp h
  obtain ⟨n, hn⟩ := List.mem_iff_get.mp hp
  rw [List.get_enumFrom] at hn
  refine ⟨Fin.cast (by simp) n, ?_, ?_⟩
  · rw [← hpe, ← hn]
  · rw [← hpe, ← hn]
    simp

/-- Claim C6: for any two entries of the Rank Assigner's output (in
either dedupe mode, since the input rows are arbitrary), a strictly
smaller lex_rank implies a byte-wise smaller-or-equal canonical key. -/
theorem C6_rank_monotone (rows : List RankRow) (e1 e2 : RankedRow)
    (h1 : e1 ∈ computeLexRank rows) (h2 : e2 ∈ computeLexRank rows)
    (hlt : e1.lex_rank < e2.lex_rank) :
    e1.row.normalized_word.data ≤ e2.row.normalized_word.data := by
  obtain ⟨i, hi, hri⟩ := computeLexRank_mem h1
  obtain ⟨j, hj, hrj⟩ := computeLexRank_mem h2
  have hij : i < j := by
    rw [hri, hrj] at hlt
    exact Fin.lt_def.mpr (by omega)
  have hsorted : List.Sorted rowLE (sortRows rows) :=
    List.sorted_insertionSort rowLE rows
  have hle : rowLE ((sortRows rows).get i) ((sortRows rows).get j) :=
    List.pairwise_iff_get.mp hsorted i j hij
  rw [hi, hj]
  rcases (Prod.Lex.le_iff _ _).mp hle with hfst | ⟨heq, _⟩
  · exact le_of_lt hfst
  · exact le_of_eq heq

/-- Claim C6, witness at a concrete two-row dataset. -/
theorem C6_rank_monotone_witness :
    (({ row := ⟨"f", 1, "a", "a", []⟩, lex_rank := 1 } : RankedRow) ∈
        computeLexRank [⟨"f", 1, "a", "a", []⟩, ⟨"f", 1, "b", "b", []⟩]) ∧
      (({ row := ⟨"f", 1, "b", "b", []⟩, lex_rank := 2 } : RankedRow) ∈
        computeLexRank [⟨"f", 1, "a", "a", []⟩, ⟨"f", 1, "b", "b", []⟩]) ∧
      (1 : Nat) < 2 ∧
      ("a" : String).data ≤ ("b" : String).data :=
  ⟨by decide, by decide, by decide,
    C6_rank_monotone [⟨"f", 1, "a", "a", []⟩, ⟨"f", 1, "b", "b", []⟩]
      { row := ⟨"f", 1, "a", "a", []⟩, lex_rank := 1 }
      { row := ⟨"f", 1, "b", "b", []⟩, lex_rank := 2 }
      (by decide) (by decide) (by decide)⟩

/-- Claim C7: the Rank Assigner is idempotent — re-running it on its
own output with the rank column stripped reproduces the identical
ranked dataset, every entry keeping its lex_rank. -/
theorem C7_idempotent (rows : List RankRow) :
    computeLexRank (stripRanks (computeLexRank rows)) = computeLexRank rows := by
  have hstrip : stripRanks (computeLexRank rows) = sortRows rows := by
    unfold stripRanks computeLexRank
    rw [List.map_map]
    have hcomp : ((fun r : RankedRow => r.row) ∘
        fun p : Nat × RankRow => ({ row := p.2, lex_rank := p.1 } : RankedRow)) = Prod.snd := rfl
    rw [hcomp, List.enumFrom_map_snd]
  rw [hstrip]
  unfold computeLexRank
  have hsorted : List.Sorted rowLE (sortRows rows) :=
    List.sorted_insertionSort rowLE rows
  rw [show sortRows (sortRows rows) = sortRows rows from hsorted.insertionSort_eq]

lemma any_ord_emptyKey (c : Prop) [Decidable c] (i : Nat) :
    (if c then [Violation.emptyKey i] else []).any Violation.isOrdering = false := by
  split <;> rfl

lemma any_ord_nonAlpha (c : Prop) [Decidable c] (i : Nat) (k : String) :
    (if c then [Violation.nonAlpha i k] else []).any Violation.isOrdering = false := by
  split <;> rfl

lemma any_ord_firstLetter (c : Prop) [Decidable c] (i : Nat) (a b : String) :
    (if c then [Violation.firstLetterMismatch i a b] else []).any Violation.isOrdering = false := by
  split <;> rfl

lemma any_ord_lengthMismatch (c : Prop) [Decidable c] (i : Nat) (n : Int) (l : Nat) :
    (if c then [Violation.lengthMismatch i n l] else []).any Violation.isOrdering = false := by
  split <;> rfl

lemma any_ord_duplicateRank (c : Prop) [Decidable c] (i : Nat) (r : Int) :
    (if c then [Violation.duplicateRank i r] else []).any Violation.isOrdering = false := by
  split <;> rfl

lemma any_ord_rankSet (c : Prop) [Decidable c] :
    (if c then [] else [Violation.rankSetMismatch]).any Violation.isOrdering = false := by
  split <;> rfl

lemma any_ord_orderingViolation (c : Prop) [Decidable c] (i : Nat) (k l : String) :
    (if c then [Violation.orderingViolation i k l] else []).any Violation.isOrdering
      = decide c := by
  split <;> simp [Violation.isOrdering, *]

lemma strippedKeys_cons (row : VRow) (rest : List VRow) :
    strippedKeys (row :: rest) =
      if pyStrip row.normalized_word = "" then strippedKeys rest
      else pyStrip row.normalized_word :: strippedKeys rest := by
  by_cases h : pyStrip row.normalized_word = "" <;> simp [strippedKeys, h]

lemma checkLoop_ordering (rows : List VRow) :
    ∀ (idx : Nat) (seen : List Int) (lastWord : Option String),
      ((checkLoop idx seen lastWord rows).1.any Violation.isOrdering = true)
        ↔ ¬ List.Chain' (fun a b : String => a.data ≤ b.data)
            (lastWord.toList ++ strippedKeys rows) := by
  induction rows with
  | nil =>
    intro idx seen lastWord
    cases lastWord <;> simp [checkLoop, strippedKeys]
  | cons row rest ih =>
    intro idx seen lastWord
    rw [strippedKeys_cons]
    by_cases hk : pyStrip row.normalized_word = ""
    · cases lastWord with
      | none =>
        simp only [checkLoop, List.any_append, any_ord_emptyKey, any_ord_nonAlpha,
          any_ord_firstLetter, any_ord_lengthMismatch, any_ord_duplicateRank,
          List.any_nil, Bool.false_or, Bool.or_false,
          if_neg (show ¬ pyStrip row.normalized_word ≠ "" by simp [hk])]
        rw [ih]
        simp [hk]
      | some lw =>
        simp only [checkLoop, List.any_append, any_ord_emptyKey, any_ord_nonAlpha,
          any_ord_firstLetter, any_ord_lengthMismatch, any_ord_duplicateRank,
          any_ord_orderingViolation, List.any_nil, Bool.false_or, Bool.or_eq_true,
          decide_eq_true_eq,
          if_neg (show ¬ pyStrip row.normalized_word ≠ "" by simp [hk])]
        rw [ih]
        simp [hk]
    · cases lastWord with
      | none =>
        simp only [checkLoop, List.any_append, any_ord_emptyKey, any_ord_nonAlpha,
          any_ord_firstLetter, any_ord_lengthMismatch, any_ord_duplicateRank,
          List.any_nil, Bool.false_or, Bool.or_false,
          if_pos (show pyStrip row.normalized_word ≠ "" from hk)]
        rw [ih]
        simp [hk]
      | some lw =>
        simp only [checkLoop, List.any_append, any_ord_emptyKey, any_ord_nonAlpha,
          any_ord_firstLetter, any_ord_lengthMismatch, any_ord_duplicateRank,
          any_ord_orderingViolation, List.any_nil, Bool.false_or, Bool.or_eq_true,
          decide_eq_true_eq,
          if_pos (show pyStrip row.normalized_word ≠ "" from hk)]
        rw [ih]
        simp only [if_neg hk, Option.toList_some, List.singleton_append, List.cons_append,
          List.nil_append, List.chain'_cons]
        constructor
        · rintro (⟨-, hlt⟩ | hrest) hc
          · exact absurd hc.1 (not_le.mpr hlt)
          · exact hrest hc.2
        · intro hc
          by_cases hle : lw.data ≤ (pyStrip row.normalized_word).data
          · right
            intro hch
            exact hc ⟨hle, hch⟩
          · exact Or.inl ⟨hk, not_le.mp hle⟩

/-- Claim C3, counterexample: on a dataset whose rows are stored out
of rank order (file order key "b" rank 2, then key "a" rank 1), the
canonical keys walked in ascending lex_rank order are non-decreasing,
yet the verifier still reports an ordering violation — it walks the
rows in file order, not in rank order. -/
theorem C3_counterexample :
    ((sanityErrors [⟨"b", "b", 1, 2⟩, ⟨"a", "a", 1, 1⟩]).any Violation.isOrdering = true) ∧
      specRankWalkMonotone [⟨"b", "b", 1, 2⟩, ⟨"a", "a", 1, 1⟩] := by
  constructor
  · decide
  · unfold specRankWalkMonotone
    rw [show (List.insertionSort (fun a b : VRow => a.lex_rank ≤ b.lex_rank)
        [⟨"b", "b", 1, 2⟩, ⟨"a", "a", 1, 1⟩]).map (fun r => r.normalized_word)
      = ["a", "b"] from rfl]
    exact List.chain'_cons.mpr ⟨by decide, List.chain'_singleton _⟩

/-- Claim C3 (amended): the verifier reports an ordering violation
exactly when the sequence of stripped nonempty canonical keys, walked
in input row order, fails to be non-decreasing under byte-wise
comparison. -/
theorem C3_ordering_check (rows : List VRow) :
    ((sanityErrors rows).any Violation.isOrdering = true)
      ↔ ¬ List.Chain' (fun a b : String => a.data ≤ b.data) (strippedKeys rows) := by
  unfold sanityErrors
  rw [List.any_append]
  rw [show ((if ranksMatch (checkLoop 1 [] none rows).2 rows.length then []
      else [Violation.rankSetMismatch]).any Violation.isOrdering) = false
    from any_ord_rankSet _]
  rw [Bool.or_false]
  have h := checkLoop_ordering rows 1 [] none
  simpa using h

/-- Claim C8: the verifier exits 0 exactly when the dataset is
nonempty and no check fails, exits 2 on an empty dataset and 1 when a
violation was collected, and these codes are pairwise distinct. -/
theorem C8_exit_codes (rows : List VRow) :
    (sanityExit rows = 0 ↔ (rows ≠ [] ∧ sanityErrors rows = [])) ∧
      (rows = [] → sanityExit rows = 2) ∧
      (rows ≠ [] → sanityErrors rows ≠ [] → sanityExit rows = 1) ∧
      (2 : Nat) ≠ 0 ∧ (1 : Nat) ≠ 0 ∧ (2 : Nat) ≠ 1 := by
  unfold sanityExit
  by_cases h : rows = [] <;> by_cases h2 : sanityErrors rows = [] <;> simp [h, h2]

/-- Claim C8, witness: exit code 2 on the empty dataset, 0 on a clean
one-row dataset, 1 on a one-row dataset with an empty key. -/
theorem C8_exit_codes_witness :
    sanityExit [] = 2 ∧ sanityExit [⟨"a", "a", 1, 1⟩] = 0 ∧
      sanityExit [⟨"", "x", 0, 1⟩] = 1 :=
  ⟨(C8_exit_codes []).2.1 rfl,
    (C8_exit_codes [⟨"a", "a", 1, 1⟩]).1.mpr ⟨by decide, by decide⟩,
    (C8_exit_codes [⟨"", "x", 0, 1⟩]).2.2.1 (by decide) (by decide)⟩
